import Mathlib

/-!
Verification of the bottle-neck repository routing and class-based-view core.

The definitions below are a shallow embedding of `bottle_neck/routing.py`,
`bottle_neck/cbv.py` and `bottle_neck/webapi.py`.  Python dynamic values that
the routing layer stores are modelled by an inductive `PyVal`; object identity
(relevant because Python `set` membership for `Route` objects falls back to
identity) is modelled by fresh numeric object ids threaded through a state.
-/

namespace BottleNeck

/-- Dynamic Python values as far as `routing.Route` manipulates them:
strings, callables identified by a numeric id, tuples of strings (the
`methods` argument), and the one-element tuples that the trailing commas
in `Route.__init__` build (`tuple1 v` stands for the Python tuple
`(v,)`).  The two tuple shapes are separate constructors so that value
equality stays decidable. -/
inductive PyVal : Type where
  | str : String → PyVal
  | func : Nat → PyVal
  | strTuple : List String → PyVal
  | tuple1 : PyVal → PyVal
  deriving DecidableEq, Repr

/-- Python truthiness for the values above: an empty string and an empty
tuple are falsy, every other value (in particular every one-element
tuple) is truthy. -/
def PyVal.truthy : PyVal → Bool
  | .str s => !(s == "")
  | .func _ => true
  | .strTuple l => !(l.isEmpty)
  | .tuple1 _ => true

/-- Embedding of `routing.Route`: the three `__slots__` fields.  The
constructor below (`Route.init`) reproduces `Route.__init__`. -/
structure Route where
  uri : PyVal
  methods : PyVal
  callable_obj : PyVal
  deriving DecidableEq, Repr

/-- `Route.__init__`: note the trailing commas in the source
(`self.uri = uri,` and `self.methods = methods,`), which wrap both
arguments in one-element tuples before storing them. -/
def Route.init (uri methods callable_obj : PyVal) : Route :=
  { uri := .tuple1 uri, methods := .tuple1 methods, callable_obj := callable_obj }

/-- `Route.is_valid`: `all([arg for arg in [self.uri, self.methods,
self.callable_obj]])` under Python truthiness. -/
def Route.is_valid (r : Route) : Bool :=
  [r.uri, r.methods, r.callable_obj].all PyVal.truthy

/-- A host registration produced by handing a route to the host
application routing primitive: the pattern argument, the methods argument
and the callable. -/
structure HostReg where
  pattern : PyVal
  methods : PyVal
  callable_obj : PyVal
  deriving DecidableEq, Repr

/-- The host registration a route hands to `app.route`. -/
def Route.hostReg (r : Route) : HostReg :=
  { pattern := r.uri, methods := r.methods, callable_obj := r.callable_obj }

/-- `Route.register_app`: calls `app.route(self.uri, methods=self.methods)`
on the callable, i.e. appends one host registration whose pattern argument
is the stored `uri` field (the one-element tuple). -/
def Route.register_app (r : Route) (app : List HostReg) : List HostReg :=
  app ++ [r.hostReg]

/-- The exception hierarchy of `cbv.py`: `HandlerError` and its two
subclasses `HandlerHTTPMethodError` and `HandlerPluginError`. -/
inductive HandlerExc : Type where
  | handlerError (msg : String)
  | httpMethodError (msg : String)
  | pluginError (msg : String)
  deriving DecidableEq, Repr

/-- `routing.RouteError`. -/
inductive RoutingErr : Type where
  | routeError (msg : String)
  deriving DecidableEq, Repr

/-- A callable object handed to `Router.register_handler`: a class whose
metaclass is `HandlerMeta` (identified by a class id, with id 0 reserved
for `BaseHandler` itself), a plain function, or anything else. -/
inductive RCallable : Type where
  | handlerCls : Nat → RCallable
  | function : Nat → RCallable
  | other : RCallable
  deriving DecidableEq, Repr

/-- The class id of `BaseHandler`. -/
def baseHandlerId : Nat := 0

/-- An entry of the Python set `Router._routes`: either a `Route` object
— carrying its object id, because `Route` defines no `__eq__`/`__hash__`
and set membership therefore falls back to object identity — or a handler
class, which `Route.wrap_callable` proxies unwrapped. -/
inductive RouterEntry : Type where
  | routeObj : Nat → Route → RouterEntry
  | handlerType : Nat → RouterEntry
  deriving DecidableEq, Repr

/-- State of a `Router` (plus the id supply for fresh `Route` objects and
the `base_endpoint` class attributes that `Route.wrap_callable` assigns). -/
structure RouterState where
  nextObj : Nat
  routes : List RouterEntry
  base_endpoints : List (Nat × PyVal)
  deriving DecidableEq, Repr

/-- Assignment into an association list, replacing an existing binding in
place (Python dict/attribute assignment). -/
def insertAssoc (l : List (Nat × PyVal)) (k : Nat) (v : PyVal) : List (Nat × PyVal) :=
  match l with
  | [] => [(k, v)]
  | (k', v') :: rest =>
      if k' = k then (k, v) :: rest else (k', v') :: insertAssoc rest k v

/-- Python `set.add`: a no-op when an equal member is already present. -/
def setAdd (l : List RouterEntry) (e : RouterEntry) : List RouterEntry :=
  if e ∈ l then l else l ++ [e]

/-- `Router.register_handler` composed with `Route.wrap_callable`:
a `HandlerMeta` instance has `base_endpoint` assigned and `is_valid`
forced to `True`, and is proxied into the set unchanged; a plain function
is wrapped into a fresh `Route` object that is added when `is_valid`
holds; anything else raises `RouteError("Invalid handler type.")`. -/
def register_handler (st : RouterState) (callable_obj : RCallable)
    (entrypoint : String) (methods : List String) :
    Except RoutingErr RouterState :=
  match callable_obj with
  | .handlerCls cid =>
      let st' := { st with base_endpoints := insertAssoc st.base_endpoints cid (.str entrypoint) }
      .ok { st' with routes := setAdd st'.routes (.handlerType cid) }
  | .function fid =>
      let r := Route.init (.str entrypoint) (.strTuple methods) (.func fid)
      if r.is_valid then
        .ok { st with
              nextObj := st.nextObj + 1,
              routes := setAdd st.routes (.routeObj st.nextObj r) }
      else
        .error (.routeError "Missing params")
  | .other => .error (.routeError "Invalid handler type.")

/-- What mounting emits on the host application: either a direct
registration from a function-based `Route`, or the whole registration of
a concrete handler class via its `register_app` classmethod (whose route
expansion is modelled separately below and abstracted here). -/
inductive HostAction : Type where
  | reg : HostReg → HostAction
  | handlerMount : Nat → HostAction
  deriving DecidableEq, Repr

/-- Loop body of `Router.mount`: each entry has `register_app` called on
it; `BaseHandler.register_app` starts by raising
`HandlerError("Cant register a `BaseHandler` class instance")` when the
class is `BaseHandler` itself. -/
def mountGo : List RouterEntry → List HostAction → Except HandlerExc (List HostAction)
  | [], acc => .ok acc
  | .routeObj _ r :: rest, acc => mountGo rest (acc ++ [.reg r.hostReg])
  | .handlerType cid :: rest, acc =>
      if cid = baseHandlerId then
        .error (.handlerError "Cant register a `BaseHandler` class instance")
      else
        mountGo rest (acc ++ [.handlerMount cid])

/-- `Router.mount`. -/
def mount (st : RouterState) : Except HandlerExc (List HostAction) :=
  mountGo st.routes []

/-- The freshness invariant of the object-id supply: every `Route` object
in the set was allocated below `nextObj`. -/
def RouterWF (st : RouterState) : Bool :=
  st.routes.all fun e =>
    match e with
    | .routeObj oid _ => oid < st.nextObj
    | .handlerType _ => true

/-! ### `cbv.route_method` -/

/-- Python `str.lower()`, character by character. -/
def pyLower (s : String) : String := ⟨s.data.map Char.toLower⟩

/-- Python `str.upper()`, character by character. -/
def pyUpper (s : String) : String := ⟨s.data.map Char.toUpper⟩

/-- Python `str.replace("//", "/")`: replace every non-overlapping
occurrence, scanning left to right. -/
def replaceDS : List Char → List Char
  | '/' :: '/' :: rest => '/' :: replaceDS rest
  | c :: rest => c :: replaceDS rest
  | [] => []

/-- `s.replace("//", "/")` on strings. -/
def pyReplaceDS (s : String) : String := ⟨replaceDS s.data⟩

/-- `cbv.DEFAULT_ROUTES`. -/
def DEFAULT_ROUTES : List String := ["get", "put", "post", "delete", "patch", "options"]

/-- The attributes `route_method` attaches to a handler callable. -/
structure TaggedMethod where
  http_method : String
  url_extra_part : Option String
  deriving DecidableEq, Repr

/-- `cbv.route_method(method_name, extra_part)` applied to a callable of
name `fname`: raises `HandlerHTTPMethodError` when the lower-cased verb
is not in `DEFAULT_ROUTES`, otherwise attaches the upper-cased verb and
the optional extra url part. -/
def route_method (method_name : String) (extra_part : Bool) (fname : String) :
    Except HandlerExc TaggedMethod :=
  if !(DEFAULT_ROUTES.contains (pyLower method_name)) then
    .error (.httpMethodError ("Invalid http method in method: " ++ method_name))
  else
    .ok { http_method := pyUpper method_name,
          url_extra_part := if extra_part then some fname else none }

/-! ### `cbv.HandlerMeta.__call__` (singleton construction) -/

/-- The mutable state behind `HandlerMeta`: the `_instances` cache
(class id → instance id) together with a supply of fresh instance ids
standing for `super().__call__` allocating a new object. -/
structure MetaState where
  nextInst : Nat
  instances : List (Nat × Nat)
  deriving DecidableEq, Repr

/-- `HandlerMeta.__call__`: look the class up in `_instances`; on a miss
construct a fresh instance and cache it; return the cached instance. -/
def HandlerMeta.call (cls : Nat) (s : MetaState) : Nat × MetaState :=
  match s.instances.lookup cls with
  | some inst => (inst, s)
  | none =>
      (s.nextInst,
       { nextInst := s.nextInst + 1, instances := (cls, s.nextInst) :: s.instances })

/-- A sequence of constructions of arbitrary handler classes, modelling
the rest of the process lifetime between two constructions. -/
def runConstructs (L : List Nat) (s : MetaState) : MetaState :=
  L.foldl (fun s c => (HandlerMeta.call c s).2) s

/-! ### The plugin pipeline of `cbv.BaseHandler.register_app` -/

/-- A wrapped operation: it maps an argument to a result together with
the trace of side effects emitted during the call, in order. -/
def Wrapped : Type := Nat → Nat × List String

/-- A Python exception that applying a plugin may raise. -/
inductive PyErr : Type where
  | typeError (msg : String)
  | otherError (msg : String)
  deriving DecidableEq, Repr

/-- A handler plugin, as `register_app` uses it: a callable applied to the
current operation, returning the further-wrapped operation or raising. -/
def HPlugin : Type := Wrapped → Except PyErr Wrapped

/-- Outcome of the registration-time wrapping loops: either the
`HandlerPluginError` that the opt-in loop re-raises from a `TypeError`,
or an exception propagated raw. -/
inductive RegErr : Type where
  | handlerPluginError (msg : String)
  | raw (e : PyErr)
  deriving DecidableEq, Repr

/-- The opt-in loop of `register_app`:
`try: func_callable = cls.plugins[plugin](func_callable)
 except TypeError as error: raise HandlerPluginError(error.args)`. -/
def applyOptIns : List (String × HPlugin) → Wrapped → Except RegErr Wrapped
  | [], f => .ok f
  | (_, p) :: rest, f =>
      match p f with
      | .ok f' => applyOptIns rest f'
      | .error (.typeError m) => .error (.handlerPluginError m)
      | .error e => .error (.raw e)

/-- The global loop of `register_app`:
`func_callable = cls.global_plugins[global_plugin](func_callable)`,
with no exception handler around it. -/
def applyGlobals : List (String × HPlugin) → Wrapped → Except RegErr Wrapped
  | [], f => .ok f
  | (_, p) :: rest, f =>
      match p f with
      | .ok f' => applyGlobals rest f'
      | .error e => .error (.raw e)

/-- The plugin-wrapping phase of `register_app` for one operation:
`applied_plugins = [pl for pl in cls.plugins if hasattr(func_callable, pl)]`
— the opt-in plugins are scanned in the order of the `plugins` mapping
and kept when the callable carries the corresponding tag attribute —
then the opt-in loop runs, then the global loop. -/
def wrapOperation (plugins : List (String × HPlugin)) (tags : List String)
    (global_plugins : List (String × HPlugin)) (f : Wrapped) : Except RegErr Wrapped :=
  let applied_plugins := plugins.filter (fun q => tags.contains q.1)
  match applyOptIns applied_plugins f with
  | .ok f1 => applyGlobals global_plugins f1
  | .error e => .error e

/-- The base operation used to observe wrapping: returns its argument and
an empty side-effect trace. -/
def baseOp : Wrapped := fun x => (x, [])

/-- A plugin that observes the result of the operation it wraps: on each
invocation it first runs the inner operation, then emits its own name. -/
def observePlugin (name : String) : HPlugin :=
  fun f => .ok (fun x => ((f x).1, (f x).2 ++ [name]))

/-- A plugin mapping made of observation plugins. -/
def observeMap (names : List String) : List (String × HPlugin) :=
  names.map (fun n => (n, observePlugin n))

/-- A plugin whose wrapping step raises `TypeError(msg)`. -/
def failingPlugin (msg : String) : HPlugin :=
  fun _ => .error (.typeError msg)

/-! ### `cbv.BaseHandler._router_helper` / `_build_routes` -/

/-- A default value of a Python parameter: absent, `None`, or some other
value. -/
inductive PyDefault : Type where
  | noDefault
  | defNone
  | defSome (v : Nat)
  deriving DecidableEq, Repr

/-- One parameter of a handler method signature (excluding `cls`). -/
structure MParam where
  name : String
  default : PyDefault
  deriving DecidableEq, Repr

/-- `fixed_params = [param for param in method_args
                     if method_args[param].default is not None]`:
both parameters without a default (`inspect.Parameter.empty` is not
`None`) and parameters with a non-`None` default are kept. -/
def fixedParams (method_args : List MParam) : List String :=
  (method_args.filter (fun p => p.default != .defNone)).map (·.name)

/-- `nullable_params = [param for param in method_args
                        if param not in fixed_params]`. -/
def nullableParams (method_args : List MParam) : List String :=
  (method_args.filter (fun p => !((fixedParams method_args).contains p.name))).map (·.name)

/-- `cbv.BaseHandler._router_helper`: note that in
`combinations += [combinations[-1] + [param] for param in nullable_params]`
the comprehension is evaluated before the `+=`, so `combinations[-1]`
denotes `fixed_params` at every iteration. -/
def router_helper (method_args : List MParam) : List (List String) :=
  let combinations := [fixedParams method_args]
  combinations ++
    (nullableParams method_args).map (fun param => combinations.getLastD [] ++ [param])

/-- `cbv.BaseHandler._build_routes`. -/
def build_routes (base_endpoint : String) (method_args : List MParam)
    (url_extra_part : Option String) : List String :=
  let pfx := (match url_extra_part with | some u => "/" ++ u | none => "")
  let pfx := pfx ++ (if method_args.isEmpty then "" else "/:")
  let endpoint := base_endpoint ++ pfx
  if method_args.isEmpty then [endpoint]
  else
    (router_helper method_args).map
      (fun args_list => pyReplaceDS (endpoint ++ String.intercalate "/:" args_list))

/-! ### `cbv.BaseHandler.add_plugin` and class-attribute lookup

`plugins = dict()` and `global_plugins = dict()` are class attributes
initialised on `BaseHandler` itself; `add_plugin` fetches the dict with
`getattr(cls, ...)`, which walks the inheritance chain, and then mutates
the dict object it found in place.  Dict objects therefore live on a
heap, and classes hold optional references to own dicts. -/

/-- A plugin dictionary: plugin name → plugin (by id). -/
abbrev PluginDict : Type := List (String × Nat)

/-- A handler class: its parent in the inheritance chain and the
references to the `plugins` / `global_plugins` dicts it defines itself
(`none` when the attribute is inherited). -/
structure HandlerClsDef where
  parent : Option Nat
  pluginsAttr : Option Nat
  globalAttr : Option Nat
  deriving DecidableEq, Repr

/-- The world `add_plugin` acts on: the heap of dict objects and the
class table. -/
structure PluginWorld where
  heap : List (Nat × PluginDict)
  classes : List (Nat × HandlerClsDef)
  deriving DecidableEq, Repr

/-- `getattr(cls, 'plugins')` / `getattr(cls, 'global_plugins')`: walk up
the inheritance chain to the first class defining the attribute and
return the reference to its dict object.  The lookup reads only the
class table, never the heap; `fuel` bounds the walk. -/
def getattrDict (classes : List (Nat × HandlerClsDef)) (cid : Nat)
    (global_scope : Bool) : Nat → Option Nat
  | 0 => none
  | fuel + 1 =>
      match classes.lookup cid with
      | none => none
      | some cd =>
          match (if global_scope then cd.globalAttr else cd.pluginsAttr) with
          | some ref => some ref
          | none =>
              match cd.parent with
              | some p => getattrDict classes p global_scope fuel
              | none => none

/-- Python dict assignment `repo[name] = plugin`: replace an existing
binding in place or append a new one. -/
def dictAssign (d : PluginDict) (k : String) (v : Nat) : PluginDict :=
  match d with
  | [] => [(k, v)]
  | (k', v') :: rest => if k' = k then (k, v) :: rest else (k', v') :: dictAssign rest k v

/-- Mutate the dict object at `ref` on the heap by assigning every given
`(name, plugin)` pair. -/
def heapUpdate (h : List (Nat × PluginDict)) (ref : Nat)
    (entries : List (String × Nat)) : List (Nat × PluginDict) :=
  h.map (fun rd =>
    if rd.1 = ref then (rd.1, entries.foldl (fun d e => dictAssign d e.1 e.2) rd.2) else rd)

/-- `BaseHandler.add_plugin(plugin_callables, global_scope)` on class
`cid`: fetch the dict via attribute lookup and assign each plugin into
it under its name. `none` when the attribute is missing altogether. -/
def add_plugin (w : PluginWorld) (cid : Nat) (entries : List (String × Nat))
    (global_scope : Bool) : Option PluginWorld :=
  match getattrDict w.classes cid global_scope w.classes.length with
  | none => none
  | some ref => some { w with heap := heapUpdate w.heap ref entries }

/-- The plugin map of class `cid` as observed through attribute lookup:
the contents of the dict object that `getattr` resolves to. -/
def viewPlugins (w : PluginWorld) (cid : Nat) (global_scope : Bool) : Option PluginDict :=
  match getattrDict w.classes cid global_scope w.classes.length with
  | none => none
  | some ref => w.heap.lookup ref

/-! ### `webapi.paginator`

`record_count / limit` on Python integers is true division: CPython
computes the binary64 double nearest to the exact quotient, rounding
to 53 significant bits with ties to even.  The model below implements
that correctly-rounded division for quotients in the normal binary64
range (no overflow above `2^1024`, no gradual underflow below
`2^-1022`); the claims settled with it stay inside that range.
`math.ceil` on a finite double is exact, and `int` of its result is the
identity. -/

/-- Floor of the base-2 logarithm of `n`, by fuelled halving (`fuel ≥ n`
suffices). -/
def log2p : Nat → Nat → Nat
  | 0, _ => 0
  | fuel + 1, n => if 2 ≤ n then log2p fuel (n / 2) + 1 else 0

/-- Floor of the base-2 logarithm of the positive rational `a / b`:
scale `a` up by `2 ^ s` with `2 ^ s > b`, divide, and take the integer
logarithm of the quotient. -/
def elogNat (a b : Nat) : ℤ :=
  let s := log2p b b + 2
  ((log2p (a * 2 ^ s) ((a * 2 ^ s) / b) : ℕ) : ℤ) - (s : ℤ)

/-- Floor of the base-2 logarithm of a positive rational. -/
def ratElog (q : ℚ) : ℤ := elogNat q.num.toNat q.den

/-- Round a rational to the nearest integer, ties to even (the IEEE-754
default rounding applied to the scaled significand). -/
def rne (q : ℚ) : ℤ :=
  if q - ⌊q⌋ < 1 / 2 then ⌊q⌋
  else if 1 / 2 < q - ⌊q⌋ then ⌊q⌋ + 1
  else if ⌊q⌋ % 2 = 0 then ⌊q⌋ else ⌊q⌋ + 1

/-- Round a non-negative rational to 53 significant bits, ties to even:
the binary64 value CPython true division produces for quotients in the
normal range. -/
def roundTo53 (q : ℚ) : ℚ :=
  if q = 0 then 0
  else ((rne (q * (2 : ℚ) ^ ((52 : ℤ) - ratElog q)) : ℚ) * (2 : ℚ) ^ (ratElog q - 52))

/-- CPython `a / b` on non-negative integers: the correctly-rounded
double of the exact quotient. -/
def pyTrueDiv (a b : Nat) : ℚ := roundTo53 ((a : ℚ) / (b : ℚ))

/-- The mapping `webapi.paginator` returns. -/
structure PageInfo where
  total_count : Nat
  total_pages : ℤ
  next_page : Option String
  prev_page : Option String
  deriving DecidableEq, Repr

/-- The default `page_nav_tpl='&limit={0}&offset={1}'.format(...)`
instantiation (braces elided here): `&limit=<l>&offset=<o>`. -/
def page_nav_tpl (limit offset : Nat) : String :=
  "&limit=" ++ toString limit ++ "&offset=" ++ toString offset

/-- `webapi.paginator` with the default template, on the non-negative
integers the claim ranges over; `int(math.ceil(record_count / limit))`
is binary64 true division followed by the exact ceiling. -/
def paginator (limit offset record_count : Nat) (base_uri : String) : PageInfo :=
  { total_count := record_count,
    total_pages := ⌈pyTrueDiv record_count limit⌉,
    next_page :=
      if limit + offset ≤ record_count then
        some (base_uri ++ page_nav_tpl limit (offset + limit))
      else none,
    prev_page :=
      if offset ≥ limit then
        some (base_uri ++ page_nav_tpl limit (offset - limit))
      else none }

/-! ## Theorems -/

/-- C10: a function-based `Route` stores its uri and its methods each
wrapped in a one-element tuple rather than the bare value passed in;
`is_valid` is true whatever the uri and methods values are (even empty
ones), and `register_app` passes the one-element tuple — never a bare
string — to the host application as the pattern. -/
theorem c10_route_tuple_fields (u m : PyVal) (fid : Nat) (app : List HostReg) :
    (Route.init u m (.func fid)).uri = .tuple1 u ∧
    (Route.init u m (.func fid)).methods = .tuple1 m ∧
    (Route.init u m (.func fid)).is_valid = true ∧
    (Route.init u m (.func fid)).register_app app =
      app ++ [{ pattern := .tuple1 u, methods := .tuple1 m, callable_obj := .func fid }] ∧
    (∀ s : String, (Route.init u m (.func fid)).uri ≠ .str s) := by
  refine ⟨rfl, rfl, ?_, rfl, ?_⟩
  · simp [Route.init, Route.is_valid, PyVal.truthy]
  · intro s h
    simp [Route.init] at h

/-- C8: tagging a handler method with a verb whose lower-casing is
outside `DEFAULT_ROUTES` fails immediately with
`HandlerHTTPMethodError`, producing no tagged callable to register;
tagging with a supported verb succeeds and carries the verb
upper-cased. -/
theorem c8_route_method_verbs (method_name fname : String) (extra_part : Bool) :
    (DEFAULT_ROUTES.contains (pyLower method_name) = false →
      route_method method_name extra_part fname =
        .error (.httpMethodError ("Invalid http method in method: " ++ method_name))) ∧
    (DEFAULT_ROUTES.contains (pyLower method_name) = true →
      route_method method_name extra_part fname =
        .ok { http_method := pyUpper method_name,
              url_extra_part := if extra_part then some fname else none }) := by
  constructor <;> intro h <;> (unfold route_method; rw [h]; simp)

/-- Witness for C8: `PORT` (from the repository test suite) is rejected
with the method-declaration error, while `GeT` is accepted and tagged
with `GET`. -/
theorem c8_witness :
    route_method "PORT" true "fn" =
      .error (.httpMethodError "Invalid http method in method: PORT") ∧
    route_method "GeT" true "version" =
      .ok { http_method := "GET", url_extra_part := some "version" } :=
  ⟨(c8_route_method_verbs "PORT" "fn" true).1 (by decide),
   (c8_route_method_verbs "GeT" "version" true).2 (by decide)⟩

/-- `HandlerMeta.__call__` on a class already cached returns the cached
instance and leaves the state unchanged. -/
theorem call_of_cached (cls i : Nat) (s : MetaState)
    (h : s.instances.lookup cls = some i) : HandlerMeta.call cls s = (i, s) := by
  unfold HandlerMeta.call
  rw [h]

/-- Constructing any class preserves an existing cache binding. -/
theorem lookup_call_preserve (c cls i : Nat) (s : MetaState)
    (h : s.instances.lookup cls = some i) :
    ((HandlerMeta.call c s).2).instances.lookup cls = some i := by
  unfold HandlerMeta.call
  cases hc : s.instances.lookup c with
  | some inst => simpa [hc] using h
  | none =>
      have hne : (cls == c) = false := by
        by_cases hb : cls = c
        · subst hb
          rw [h] at hc
          cases hc
        · simp [hb]
      simp [hc, List.lookup, hne, h]

/-- Any sequence of constructions preserves an existing cache binding. -/
theorem lookup_runConstructs_preserve (L : List Nat) (cls i : Nat) (s : MetaState)
    (h : s.instances.lookup cls = some i) :
    (runConstructs L s).instances.lookup cls = some i := by
  induction L generalizing s with
  | nil => simpa [runConstructs] using h
  | cons c L ih =>
      have : runConstructs (c :: L) s = runConstructs L ((HandlerMeta.call c s).2) := rfl
      rw [this]
      exact ih _ (lookup_call_preserve c cls i s h)

/-- C3: for every concrete handler type, the first construction caches
the instance, an immediately repeated construction returns the identical
instance without touching the state, and a construction after any other
constructions during the process lifetime still returns the identical
cached instance unchanged. -/
theorem c3_singleton_instances (cls : Nat) (s : MetaState) (L : List Nat) :
    (HandlerMeta.call cls s).2.instances.lookup cls = some (HandlerMeta.call cls s).1 ∧
    HandlerMeta.call cls ((HandlerMeta.call cls s).2) =
      ((HandlerMeta.call cls s).1, (HandlerMeta.call cls s).2) ∧
    HandlerMeta.call cls (runConstructs L (HandlerMeta.call cls s).2) =
      ((HandlerMeta.call cls s).1, runConstructs L (HandlerMeta.call cls s).2) := by
  have hcache : (HandlerMeta.call cls s).2.instances.lookup cls =
      some (HandlerMeta.call cls s).1 := by
    unfold HandlerMeta.call
    cases hc : s.instances.lookup cls with
    | some inst => simp [hc]
    | none => simp [hc, List.lookup]
  refine ⟨hcache, ?_, ?_⟩
  · exact call_of_cached cls _ _ hcache
  · exact call_of_cached cls _ _ (lookup_runConstructs_preserve L cls _ _ hcache)

/-- Exact ceiling division of naturals matches the rounded-up natural
division formula. -/
theorem ceil_natCast_div (rc l : ℕ) (hl : 0 < l) :
    ⌈(rc : ℚ) / (l : ℚ)⌉ = ((rc + l - 1) / l : ℕ) := by
  have hmod := Nat.div_add_mod (rc + l - 1) l
  have hlt : (rc + l - 1) % l < l := Nat.mod_lt _ hl
  set z := (rc + l - 1) / l with hz
  have hz1 : rc ≤ l * z := by omega
  have hz2 : l * z < rc + l := by omega
  have hlq : (0 : ℚ) < (l : ℚ) := by exact_mod_cast hl
  rw [Int.ceil_eq_iff]
  constructor
  · rw [lt_div_iff₀ hlq]
    push_cast
    have h2 : ((l : ℚ) * z) < rc + l := by exact_mod_cast hz2
    nlinarith
  · rw [div_le_iff₀ hlq]
    push_cast
    have h1 : ((rc : ℚ)) ≤ l * z := by exact_mod_cast hz1
    nlinarith

/-- The bounds of the fuelled integer base-2 logarithm: enough fuel
pins the floor of `log2 n`. -/
theorem log2p_spec (fuel n : Nat) (h1 : 1 ≤ n) (h2 : n ≤ fuel) :
    2 ^ log2p fuel n ≤ n ∧ n < 2 ^ (log2p fuel n + 1) := by
  induction fuel generalizing n with
  | zero => omega
  | succ fuel ih =>
      by_cases hn : 2 ≤ n
      · have hnd : 1 ≤ n / 2 := by omega
        have hfd : n / 2 ≤ fuel := by omega
        obtain ⟨ha, hb⟩ := ih (n / 2) hnd hfd
        simp only [log2p, if_pos hn]
        rw [pow_succ, pow_succ] at *
        omega
      · have hn1 : n = 1 := by omega
        subst hn1
        simp [log2p]

/-- `elogNat a b` is the floor of the base-2 logarithm of `a / b`. -/
theorem elogNat_spec (a b : Nat) (ha : 1 ≤ a) (hb : 1 ≤ b) :
    (2 : ℚ) ^ elogNat a b ≤ (a : ℚ) / (b : ℚ) ∧
      (a : ℚ) / (b : ℚ) < (2 : ℚ) ^ (elogNat a b + 1) := by
  have hun : elogNat a b =
      ((log2p (a * 2 ^ (log2p b b + 2)) ((a * 2 ^ (log2p b b + 2)) / b) : ℕ) : ℤ) -
        ((log2p b b + 2 : ℕ) : ℤ) := rfl
  rw [hun]
  set s : ℕ := log2p b b + 2 with hs
  set N : ℕ := (a * 2 ^ s) / b with hN
  set k : ℕ := log2p (a * 2 ^ s) N with hk
  obtain ⟨hL1, hL2⟩ := log2p_spec b b hb le_rfl
  have hb2s : b ≤ 2 ^ s := by
    have h2 : 2 ^ (log2p b b + 1) ≤ 2 ^ s := Nat.pow_le_pow_right (by norm_num) (by omega)
    omega
  have hN1 : 1 ≤ N := by
    rw [hN]
    rw [Nat.one_le_div_iff (by omega)]
    calc b ≤ 2 ^ s := hb2s
    _ ≤ a * 2 ^ s := Nat.le_mul_of_pos_left _ (by omega)
  have hNfuel : N ≤ a * 2 ^ s := Nat.div_le_self _ _
  obtain ⟨hk1, hk2⟩ := log2p_spec (a * 2 ^ s) N hN1 hNfuel
  have hdiv1 : b * N ≤ a * 2 ^ s := by
    rw [hN, Nat.mul_comm]
    exact Nat.div_mul_le_self _ _
  have hdiv2 : a * 2 ^ s < b * (N + 1) := by
    rw [hN]
    exact Nat.lt_mul_div_succ _ (by omega)
  -- to rationals
  have hbq : (0 : ℚ) < (b : ℚ) := by exact_mod_cast hb
  have h2s : (0 : ℚ) < (2 : ℚ) ^ (s : ℕ) := by positivity
  have hzsub : (2 : ℚ) ^ ((k : ℤ) - (s : ℤ)) = (2 : ℚ) ^ (k : ℕ) / (2 : ℚ) ^ (s : ℕ) := by
    rw [zpow_sub₀ (by norm_num), zpow_natCast, zpow_natCast]
  have hzsub2 : (2 : ℚ) ^ ((k : ℤ) - (s : ℤ) + 1) =
      (2 : ℚ) ^ (k + 1 : ℕ) / (2 : ℚ) ^ (s : ℕ) := by
    have : (k : ℤ) - (s : ℤ) + 1 = ((k + 1 : ℕ) : ℤ) - (s : ℤ) := by push_cast; ring
    rw [this, zpow_sub₀ (by norm_num), zpow_natCast, zpow_natCast]
  constructor
  · rw [hzsub, div_le_div_iff₀ h2s hbq]
    have hnat : 2 ^ k * b ≤ a * 2 ^ s := by
      calc 2 ^ k * b = b * 2 ^ k := by ring
      _ ≤ b * N := Nat.mul_le_mul_left b hk1
      _ ≤ a * 2 ^ s := hdiv1
    exact_mod_cast hnat
  · rw [hzsub2, div_lt_div_iff₀ hbq h2s]
    have hnat : a * 2 ^ s < 2 ^ (k + 1) * b := by
      calc a * 2 ^ s < b * (N + 1) := hdiv2
      _ ≤ b * 2 ^ (k + 1) := Nat.mul_le_mul_left b hk2
      _ = 2 ^ (k + 1) * b := by ring
    exact_mod_cast hnat

/-- `ratElog q` is the floor of the base-2 logarithm of a positive
rational. -/
theorem ratElog_spec (q : ℚ) (hq : 0 < q) :
    (2 : ℚ) ^ ratElog q ≤ q ∧ q < (2 : ℚ) ^ (ratElog q + 1) := by
  have hnum : 0 < q.num := Rat.num_pos.mpr hq
  have ha : 1 ≤ q.num.toNat := by omega
  have hb : 1 ≤ q.den := q.den_pos
  have h0 : (q.num.toNat : ℤ) = q.num := Int.toNat_of_nonneg hnum.le
  have hcast : ((q.num.toNat : ℕ) : ℚ) / ((q.den : ℕ) : ℚ) = q := by
    have h1 : ((q.num.toNat : ℕ) : ℚ) = (q.num : ℚ) := by
      calc ((q.num.toNat : ℕ) : ℚ) = ((q.num.toNat : ℤ) : ℚ) := by push_cast; ring
      _ = (q.num : ℚ) := by rw [h0]
    rw [h1]
    exact Rat.num_div_den q
  have h := elogNat_spec q.num.toNat q.den ha hb
  rw [hcast] at h
  exact h

/-- Rounding to the nearest integer moves a rational by at most one
half. -/
theorem rne_bounds (q : ℚ) : q - 1 / 2 ≤ (rne q : ℚ) ∧ (rne q : ℚ) ≤ q + 1 / 2 := by
  have hf1 : (⌊q⌋ : ℚ) ≤ q := Int.floor_le q
  have hf2 : q < ⌊q⌋ + 1 := Int.lt_floor_add_one q
  unfold rne
  by_cases h1 : q - ⌊q⌋ < 1 / 2
  · rw [if_pos h1]
    constructor <;> linarith
  · rw [if_neg h1]
    push_neg at h1
    by_cases h2 : 1 / 2 < q - ⌊q⌋
    · rw [if_pos h2]
      constructor <;> push_cast <;> linarith
    · rw [if_neg h2]
      push_neg at h2
      by_cases h3 : ⌊q⌋ % 2 = 0
      · rw [if_pos h3]
        constructor <;> linarith
      · rw [if_neg h3]
        constructor <;> push_cast <;> linarith

/-- An integer rounds to itself. -/
theorem rne_intCast (z : ℤ) : rne (z : ℚ) = z := by
  unfold rne
  rw [Int.floor_intCast]
  norm_num

/-- The key rounding fact: for `record_count` up to `2 ^ 53`, the
distance from the exact quotient to the next integer below exceeds half
an ulp, so the ceiling of the correctly-rounded binary64 quotient equals
the ceiling of the exact quotient. -/
theorem roundTo53_ceil (rc l : ℕ) (hl : 0 < l) (hrc : rc ≤ 2 ^ 53) :
    ⌈pyTrueDiv rc l⌉ = ⌈(rc : ℚ) / (l : ℚ)⌉ := by
  rcases Nat.eq_zero_or_pos rc with h0 | hpos
  · subst h0
    norm_num [pyTrueDiv, roundTo53]
  have hlq : (0 : ℚ) < (l : ℚ) := by exact_mod_cast hl
  have hrcq : (0 : ℚ) < (rc : ℚ) := by exact_mod_cast hpos
  have hrc2 : (rc : ℚ) ≤ (2 : ℚ) ^ (53 : ℤ) := by
    have h2 : ((2 : ℚ)) ^ (53 : ℤ) = ((2 ^ 53 : ℕ) : ℚ) := by
      rw [show ((53 : ℤ)) = ((53 : ℕ) : ℤ) from rfl, zpow_natCast]
      push_cast
      ring
    rw [h2]
    exact_mod_cast hrc
  set q : ℚ := (rc : ℚ) / (l : ℚ) with hqdef
  have hq : 0 < q := div_pos hrcq hlq
  have hqne : q ≠ 0 := ne_of_gt hq
  have hpy : pyTrueDiv rc l = roundTo53 q := rfl
  obtain ⟨he1, he2⟩ := ratElog_spec q hq
  set e : ℤ := ratElog q with hedef
  have hq53 : q ≤ (2 : ℚ) ^ (53 : ℤ) := by
    have h1 : q ≤ (rc : ℚ) := div_le_self hrcq.le (by exact_mod_cast hl)
    linarith
  set m : ℚ := q * (2 : ℚ) ^ ((52 : ℤ) - e) with hmdef
  by_cases hint : ∃ z : ℤ, m = (z : ℚ)
  · obtain ⟨z, hz⟩ := hint
    have hid : roundTo53 q = q := by
      unfold roundTo53
      rw [if_neg hqne, ← hedef, ← hmdef, hz, rne_intCast, ← hz, hmdef]
      rw [mul_assoc, ← zpow_add₀ (two_ne_zero),
        show (52 : ℤ) - e + (e - 52) = 0 from by ring, zpow_zero, mul_one]
    rw [hpy, hid]
  · have he53 : e ≤ 53 := by
      by_contra hgt
      push_neg at hgt
      have h1 : (2 : ℚ) ^ (54 : ℤ) ≤ (2 : ℚ) ^ e := by
        apply zpow_le_zpow_right₀ (by norm_num) (by omega)
      have h2 : (2 : ℚ) ^ (53 : ℤ) < (2 : ℚ) ^ (54 : ℤ) := by
        apply zpow_lt_zpow_right₀ (by norm_num) (by omega)
      linarith
    have he52 : e ≤ 52 := by
      by_contra hgt
      have he : e = 53 := by omega
      have hq2 : q = (2 : ℚ) ^ (53 : ℤ) := le_antisymm hq53 (by rw [← he]; exact he1)
      apply hint
      refine ⟨2 ^ 52, ?_⟩
      rw [hmdef, hq2, he, ← zpow_add₀ (two_ne_zero),
        show (53 : ℤ) + (52 - 53) = ((52 : ℕ) : ℤ) from by norm_num, zpow_natCast]
      push_cast
      ring
    set E : ℕ := (52 - e).toNat with hEdef
    have hE : (E : ℤ) = 52 - e := Int.toNat_of_nonneg (by omega)
    have hPE : (2 : ℚ) ^ ((52 : ℤ) - e) = ((2 ^ E : ℤ) : ℚ) := by
      rw [← hE, zpow_natCast]
      push_cast
      ring
  -- q is not an integer
    have hqint : ∀ z : ℤ, q ≠ (z : ℚ) := by
      intro z hz
      apply hint
      refine ⟨z * 2 ^ E, ?_⟩
      rw [hmdef, hz, hPE]
      push_cast
      ring
    set f : ℤ := ⌊q⌋ with hfdef
    have hfl : (f : ℚ) < q :=
      lt_of_le_of_ne (Int.floor_le q) (fun he' => (hqint f he'.symm).elim)
    have hflt : q < (f : ℚ) + 1 := Int.lt_floor_add_one q
    have hceil : ⌈q⌉ = f + 1 := by
      have h1 : ⌈q⌉ ≤ f + 1 := Int.ceil_le.mpr (by push_cast; linarith)
      have h2 : f < ⌈q⌉ := Int.lt_ceil.mpr hfl
      omega
    have hnum : (f : ℚ) * l < rc := by
      have h1 : (f : ℚ) < (rc : ℚ) / l := hfl
      calc (f : ℚ) * l < ((rc : ℚ) / l) * l := mul_lt_mul_of_pos_right h1 hlq
      _ = rc := by field_simp
    have hnumZ : f * (l : ℤ) + 1 ≤ (rc : ℤ) := by
      have : f * (l : ℤ) < (rc : ℤ) := by exact_mod_cast hnum
      omega
    have hdelta : (1 : ℚ) / l ≤ q - f := by
      have h1 : q - f = ((rc : ℚ) - f * l) / l := by
        rw [hqdef]
        field_simp
        ring
      rw [h1]
      have h2 : (1 : ℚ) ≤ (rc : ℚ) - f * l := by
        have h3 : (f : ℚ) * (l : ℚ) + 1 ≤ (rc : ℚ) := by exact_mod_cast hnumZ
        linarith
      gcongr
    have h2epos : (0 : ℚ) < (2 : ℚ) ^ e := zpow_pos (by norm_num) e
    have hl53 : (l : ℚ) < (2 : ℚ) ^ ((53 : ℤ) - e) := by
      by_contra hge
      push_neg at hge
      have h1 : (l : ℚ) * (2 : ℚ) ^ e ≤ rc := by
        have h2 : (2 : ℚ) ^ e * l ≤ rc := (le_div_iff₀ hlq).mp he1
        linarith [h2]
      have h2 : (2 : ℚ) ^ (53 : ℤ) ≤ rc := by
        calc (2 : ℚ) ^ (53 : ℤ) = (2 : ℚ) ^ ((53 : ℤ) - e) * (2 : ℚ) ^ e := by
              rw [← zpow_add₀ (two_ne_zero)]
              norm_num
        _ ≤ (l : ℚ) * (2 : ℚ) ^ e := mul_le_mul_of_nonneg_right hge h2epos.le
        _ ≤ rc := h1
      have h3 : (rc : ℚ) = (2 : ℚ) ^ (53 : ℤ) := le_antisymm hrc2 h2
      have h4 : (l : ℚ) ≤ (2 : ℚ) ^ ((53 : ℤ) - e) := by
        have h5 : (l : ℚ) * (2 : ℚ) ^ e ≤ (2 : ℚ) ^ ((53 : ℤ) - e) * (2 : ℚ) ^ e := by
          rw [← zpow_add₀ (two_ne_zero)]
          norm_num
          rw [h3] at h1
          linarith [h1]
        exact le_of_mul_le_mul_right h5 h2epos
      have h6 : (l : ℚ) = (2 : ℚ) ^ ((53 : ℤ) - e) := le_antisymm h4 hge
      have h7 : q = (2 : ℚ) ^ e := by
        rw [hqdef, h3, h6, ← zpow_sub₀ (two_ne_zero)]
        norm_num
      apply hint
      refine ⟨2 ^ 52, ?_⟩
      rw [hmdef, h7, ← zpow_add₀ (two_ne_zero),
        show e + (52 - e) = ((52 : ℕ) : ℤ) from by norm_num, zpow_natCast]
      push_cast
      ring
    have hPE : (2 : ℚ) ^ ((52 : ℤ) - e) = (2 : ℚ) ^ (E : ℕ) := by
      rw [← hE, zpow_natCast]
    have hP : (0 : ℚ) < (2 : ℚ) ^ (E : ℕ) := by positivity
    have hhalf : (f : ℚ) * (2 : ℚ) ^ (E : ℕ) + 1 / 2 < m := by
      have hinv : (2 : ℚ) ^ (e - (53 : ℤ)) < 1 / l := by
        rw [show e - (53 : ℤ) = -((53 : ℤ) - e) from by ring, zpow_neg, inv_eq_one_div]
        exact one_div_lt_one_div_of_lt hlq hl53
      have hmulpos : (0 : ℚ) < (2 : ℚ) ^ ((52 : ℤ) - e) := zpow_pos (by norm_num) _
      have hstep : (1 : ℚ) / 2 < 1 / l * (2 : ℚ) ^ ((52 : ℤ) - e) := by
        calc (1 : ℚ) / 2 = (2 : ℚ) ^ (e - (53 : ℤ)) * (2 : ℚ) ^ ((52 : ℤ) - e) := by
              rw [← zpow_add₀ (two_ne_zero),
                show e - (53 : ℤ) + (52 - e) = (-1 : ℤ) from by ring]
              norm_num
        _ < 1 / l * (2 : ℚ) ^ ((52 : ℤ) - e) := mul_lt_mul_of_pos_right hinv hmulpos
      have hmono : (1 : ℚ) / l * (2 : ℚ) ^ ((52 : ℤ) - e) ≤
          (q - f) * (2 : ℚ) ^ ((52 : ℤ) - e) :=
        mul_le_mul_of_nonneg_right hdelta hmulpos.le
      have hmexp : m = (f : ℚ) * (2 : ℚ) ^ ((52 : ℤ) - e) +
          (q - f) * (2 : ℚ) ^ ((52 : ℤ) - e) := by
        rw [hmdef]
        ring
      rw [← hPE]
      linarith
    obtain ⟨hr1, hr2⟩ := rne_bounds m
    set R : ℤ := rne m with hRdef
    have hmupper : m ≤ ((f : ℚ) + 1) * (2 : ℚ) ^ (E : ℕ) := by
      have h1 : q ≤ (f : ℚ) + 1 := le_of_lt hflt
      calc m = q * (2 : ℚ) ^ ((52 : ℤ) - e) := hmdef
      _ ≤ ((f : ℚ) + 1) * (2 : ℚ) ^ ((52 : ℤ) - e) :=
            mul_le_mul_of_nonneg_right h1 (zpow_pos (by norm_num) _).le
      _ = ((f : ℚ) + 1) * (2 : ℚ) ^ (E : ℕ) := by rw [hPE]
    have hRupper : R ≤ (f + 1) * 2 ^ E := by
      have h1 : (R : ℚ) < ((f : ℚ) + 1) * (2 : ℚ) ^ (E : ℕ) + 1 := by linarith
      have h2 : (((f + 1) * 2 ^ E : ℤ) : ℚ) = ((f : ℚ) + 1) * (2 : ℚ) ^ (E : ℕ) := by
        push_cast
        ring
      rw [← h2] at h1
      have h3 : R < (f + 1) * 2 ^ E + 1 := by exact_mod_cast h1
      omega
    have hRlower : f * 2 ^ E < R := by
      have h1 : ((f * 2 ^ E : ℤ) : ℚ) = (f : ℚ) * (2 : ℚ) ^ (E : ℕ) := by
        push_cast
        ring
      have h2 : ((f * 2 ^ E : ℤ) : ℚ) < (R : ℚ) := by
        rw [h1]
        linarith
      exact_mod_cast h2
    have hr53 : roundTo53 q = (R : ℚ) * (2 : ℚ) ^ (e - 52) := by
      unfold roundTo53
      rw [if_neg hqne, ← hedef, ← hmdef, ← hRdef]
    have hinvP : (2 : ℚ) ^ (e - (52 : ℤ)) = ((2 : ℚ) ^ (E : ℕ))⁻¹ := by
      rw [show e - (52 : ℤ) = -((52 : ℤ) - e) from by ring, zpow_neg, hPE]
    have hfin : ⌈(R : ℚ) * (2 : ℚ) ^ (e - (52 : ℤ))⌉ = f + 1 := by
      have hfP : (f : ℚ) * (2 : ℚ) ^ (E : ℕ) < (R : ℚ) := by
        have h1 : ((f * 2 ^ E : ℤ) : ℚ) < ((R : ℤ) : ℚ) := by exact_mod_cast hRlower
        push_cast at h1
        linarith
      have hRP : (R : ℚ) ≤ ((f : ℚ) + 1) * (2 : ℚ) ^ (E : ℕ) := by
        have h1 : ((R : ℤ) : ℚ) ≤ (((f + 1) * 2 ^ E : ℤ) : ℚ) := by exact_mod_cast hRupper
        push_cast at h1
        linarith
      rw [Int.ceil_eq_iff, hinvP, ← div_eq_mul_inv]
      constructor
      · have h3 : (f : ℚ) < (R : ℚ) / (2 : ℚ) ^ (E : ℕ) := (lt_div_iff₀ hP).mpr hfP
        push_cast
        linarith
      · have h3 : (R : ℚ) / (2 : ℚ) ^ (E : ℕ) ≤ (f : ℚ) + 1 := (div_le_iff₀ hP).mpr hRP
        push_cast
        linarith
    rw [hpy, hr53, hfin, hceil]

/-- The value of the integer logarithm at the counterexample input. -/
theorem c9x_elog : elogNat (2 ^ 53 + 1) 1 = 53 := by decide

/-- C9 counterexample: at `record_count = 2 ^ 53 + 1`, `limit = 1`,
binary64 true division rounds the quotient down to `2 ^ 53` (a tie at
54 significant bits, broken to even), so `total_pages` is `2 ^ 53`
while the exact ceiling of `record_count / limit` is `2 ^ 53 + 1` —
the claim fails as universally stated. -/
theorem c9_counterexample :
    (paginator 1 0 (2 ^ 53 + 1) "/r").total_pages = 2 ^ 53 ∧
    ⌈((2 ^ 53 + 1 : ℕ) : ℚ) / ((1 : ℕ) : ℚ)⌉ = 2 ^ 53 + 1 ∧
    (2 ^ 53 : ℤ) ≠ 2 ^ 53 + 1 := by
  have hQ : ((2 ^ 53 + 1 : ℕ) : ℚ) / ((1 : ℕ) : ℚ) = ((2 ^ 53 + 1 : ℕ) : ℚ) := by
    norm_num
  refine ⟨?_, ?_, by norm_num⟩
  · have hpy : pyTrueDiv (2 ^ 53 + 1) 1 = roundTo53 ((2 ^ 53 + 1 : ℕ) : ℚ) := by
      unfold pyTrueDiv
      rw [hQ]
    have hne : ((2 ^ 53 + 1 : ℕ) : ℚ) ≠ 0 := by
      push_cast
      norm_num
    have helog : ratElog ((2 ^ 53 + 1 : ℕ) : ℚ) = 53 := by
      unfold ratElog
      rw [Rat.num_natCast, Rat.den_natCast, Int.toNat_natCast]
      exact c9x_elog
    have hm : ((2 ^ 53 + 1 : ℕ) : ℚ) * (2 : ℚ) ^ ((52 : ℤ) - 53) = 2 ^ 52 + 1 / 2 := by
      rw [show (52 : ℤ) - 53 = (-1 : ℤ) from by norm_num, zpow_neg_one]
      push_cast
      ring
    have hfl : ⌊(2 ^ 52 + 1 / 2 : ℚ)⌋ = (2 ^ 52 : ℤ) := by
      rw [Int.floor_eq_iff]
      constructor
      · push_cast
        norm_num
      · push_cast
        norm_num
    have hrne : rne (2 ^ 52 + 1 / 2 : ℚ) = 2 ^ 52 := by
      unfold rne
      rw [hfl]
      have hd : (2 ^ 52 + 1 / 2 : ℚ) - ((2 ^ 52 : ℤ) : ℚ) = 1 / 2 := by
        push_cast
        ring
      rw [hd]
      norm_num
    have hr : roundTo53 ((2 ^ 53 + 1 : ℕ) : ℚ) = 2 ^ 53 := by
      unfold roundTo53
      rw [if_neg hne, helog, hm, hrne]
      rw [show (53 : ℤ) - 52 = (1 : ℤ) from by norm_num, zpow_one]
      push_cast
      ring
    show ⌈pyTrueDiv (2 ^ 53 + 1) 1⌉ = 2 ^ 53
    rw [hpy, hr]
    rw [show (2 ^ 53 : ℚ) = ((2 ^ 53 : ℤ) : ℚ) from by push_cast; ring]
    exact Int.ceil_intCast _
  · rw [hQ]
    rw [show ((2 ^ 53 + 1 : ℕ) : ℚ) = (((2 ^ 53 + 1 : ℕ) : ℤ) : ℚ) from by push_cast; ring]
    rw [Int.ceil_intCast]
    push_cast

/-- C9 (amended): for every positive `limit ≤ 2 ^ 53`, non-negative
`offset`, and `record_count ≤ 2 ^ 53` — the range on which the binary64
quotient cannot round across an integer boundary and stays in the
normal float range — `paginator` returns
`total_pages = ceil(record_count / limit)` (equivalently the rounded-up
natural division), a non-`none` `next_page` exactly when
`limit + offset <= record_count`, and a non-`none` `prev_page` exactly
when `offset >= limit`; `paginator(limit=10, offset=20,
record_count=25, base_uri="/r")` yields `total_pages = 3`,
`next_page = None`, `prev_page = "/r&limit=10&offset=10"`. -/
theorem c9_paginator_amended (limit offset record_count : Nat) (base_uri : String)
    (hl : 0 < limit) (hlim : limit ≤ 2 ^ 53) (hrc : record_count ≤ 2 ^ 53) :
    (paginator limit offset record_count base_uri).total_pages =
      ⌈(record_count : ℚ) / (limit : ℚ)⌉ ∧
    (paginator limit offset record_count base_uri).total_pages =
      ((record_count + limit - 1) / limit : ℕ) ∧
    ((paginator limit offset record_count base_uri).next_page ≠ none ↔
      limit + offset ≤ record_count) ∧
    ((paginator limit offset record_count base_uri).prev_page ≠ none ↔
      limit ≤ offset) ∧
    paginator 10 20 25 "/r" =
      { total_count := 25, total_pages := 3, next_page := none,
        prev_page := some "/r&limit=10&offset=10" } := by
  have hbase : (paginator limit offset record_count base_uri).total_pages =
      ⌈pyTrueDiv record_count limit⌉ := rfl
  refine ⟨?_, ?_, ?_, ?_, ?_⟩
  · rw [hbase]
    exact roundTo53_ceil record_count limit hl hrc
  · rw [hbase, roundTo53_ceil record_count limit hl hrc,
      ceil_natCast_div record_count limit hl]
  · by_cases h : limit + offset ≤ record_count <;> simp [paginator, h]
  · by_cases h : limit ≤ offset <;> simp [paginator, h]
  · have h1 : ⌈pyTrueDiv 25 10⌉ = (3 : ℤ) := by
      rw [roundTo53_ceil 25 10 (by norm_num) (by norm_num),
        ceil_natCast_div 25 10 (by norm_num)]
      norm_num
    simp only [paginator, page_nav_tpl]
    refine PageInfo.mk.injEq .. ▸ ?_
    exact ⟨rfl, h1, by decide, by decide⟩

/-- Witness for C9 (amended): the hypotheses hold at the spec example,
which evaluates as the amended claim states. -/
theorem c9_witness :
    (0 : ℕ) < 10 ∧ (10 : ℕ) ≤ 2 ^ 53 ∧ (25 : ℕ) ≤ 2 ^ 53 ∧
    paginator 10 20 25 "/r" =
      { total_count := 25, total_pages := 3, next_page := none,
        prev_page := some "/r&limit=10&offset=10" } :=
  ⟨by decide, by decide, by decide,
   (c9_paginator_amended 10 20 25 "/r" (by decide) (by decide) (by decide)).2.2.2.2⟩

/-- C1 counterexample: on the parameter list `(a=5, b=None, c=None)`,
three parameters carry a default value, yet the route expander produces
3 variants, not 3+1: the parameter with the non-`None` default counts as
fixed (`default is not None`).  Moreover the third variant `[a, c]` is
not a strict extension of the second `[a, b]` — `combinations[-1]` in
the comprehension always denotes the fixed list — so the variants are
not a chain each extending the previous by one segment. -/
theorem c1_counterexample :
    router_helper
        [{ name := "a", default := .defSome 5 },
         { name := "b", default := .defNone },
         { name := "c", default := .defNone }] =
      [["a"], ["a", "b"], ["a", "c"]] ∧
    (([{ name := "a", default := .defSome 5 },
       { name := "b", default := .defNone },
       { name := "c", default := .defNone }] : List MParam).filter
        (fun p => p.default != .noDefault)).length = 3 ∧
    (router_helper
        [{ name := "a", default := .defSome 5 },
         { name := "b", default := .defNone },
         { name := "c", default := .defNone }]).length ≠ 3 + 1 ∧
    (["a", "c"] : List String).take (["a", "b"] : List String).length ≠ ["a", "b"] ∧
    (["a", "c"] : List String).length ≠ (["a", "b"] : List String).length + 1 := by
  refine ⟨by decide, by decide, by decide, by decide, by decide⟩

/-- The route-variant list is the fixed list followed by one variant per
nullable parameter, each being the fixed list plus that single
parameter. -/
theorem router_helper_eq (method_args : List MParam) :
    router_helper method_args =
      fixedParams method_args ::
        (nullableParams method_args).map (fun n => fixedParams method_args ++ [n]) := rfl

/-- With distinct parameter names (as in any Python signature), the
`param not in fixed_params` test is the same as `default is None`. -/
theorem nullableParams_eq_defNone (method_args : List MParam)
    (hnodup : (method_args.map (·.name)).Nodup) :
    nullableParams method_args =
      (method_args.filter (fun p => p.default == .defNone)).map (·.name) := by
  unfold nullableParams
  congr 1
  apply List.filter_congr
  intro p hp
  have hinj := List.inj_on_of_nodup_map hnodup
  by_cases hd : p.default = .defNone
  · have hmem : ¬ p.name ∈ fixedParams method_args := by
      intro hm
      unfold fixedParams at hm
      rcases List.mem_map.mp hm with ⟨q, hq, hqn⟩
      rcases List.mem_filter.mp hq with ⟨hqmem, hqd⟩
      have : q = p := hinj hqmem hp hqn
      subst this
      rw [hd] at hqd
      simp at hqd
    simp [hd, hmem]
  · have hmem : p.name ∈ fixedParams method_args := by
      unfold fixedParams
      exact List.mem_map.mpr ⟨p, List.mem_filter.mpr ⟨hp, by simp [hd]⟩, rfl⟩
    simp [hd, hmem]

/-- C1 (amended): the expander partitions parameters into fixed (no
default, or a default other than `None`) and nullable (default `None`),
in declared order, and produces exactly `k+1` ordered variants for `k`
nullable parameters: the first is the fixed parameters only, and the
`(i+1)`-th is the fixed parameters extended by exactly the `i`-th
nullable parameter alone (not cumulatively).  When the parameter list is
empty, `_build_routes` returns the single base pattern only. -/
theorem c1_route_variants_amended (method_args : List MParam)
    (hnodup : (method_args.map (·.name)).Nodup)
    (base_endpoint : String) (url_extra_part : Option String) :
    nullableParams method_args =
      (method_args.filter (fun p => p.default == .defNone)).map (·.name) ∧
    fixedParams method_args =
      (method_args.filter (fun p => p.default != .defNone)).map (·.name) ∧
    (router_helper method_args).length = (nullableParams method_args).length + 1 ∧
    (router_helper method_args).head? = some (fixedParams method_args) ∧
    (∀ i (h : i < (nullableParams method_args).length),
        (router_helper method_args)[i + 1]? =
          some (fixedParams method_args ++ [(nullableParams method_args).get ⟨i, h⟩])) ∧
    (method_args = [] →
        build_routes base_endpoint method_args url_extra_part =
          [base_endpoint ++
            (match url_extra_part with | some u => "/" ++ u | none => "")]) := by
  refine ⟨nullableParams_eq_defNone method_args hnodup, rfl, ?_, ?_, ?_, ?_⟩
  · rw [router_helper_eq]
    simp
  · rw [router_helper_eq]
    rfl
  · intro i h
    rw [router_helper_eq]
    simp [List.getElem?_map, List.getElem?_eq_getElem h]
  · intro he
    subst he
    cases url_extra_part <;> simp [build_routes]

/-- Witness for C1 (amended): the `get(self, mock_id, pk=None)` shape
from the repository tests, with distinct parameter names. -/
theorem c1_witness :
    nullableParams [{ name := "mock_id", default := .noDefault },
                    { name := "pk", default := .defNone }] =
      (([{ name := "mock_id", default := .noDefault },
         { name := "pk", default := .defNone }] : List MParam).filter
          (fun p => p.default == .defNone)).map (·.name) ∧
    (router_helper [{ name := "mock_id", default := .noDefault },
                    { name := "pk", default := .defNone }]).length =
      (nullableParams [{ name := "mock_id", default := .noDefault },
                       { name := "pk", default := .defNone }]).length + 1 :=
  (fun h => ⟨h.1, h.2.2.1⟩)
    (c1_route_variants_amended
      [{ name := "mock_id", default := .noDefault },
       { name := "pk", default := .defNone }]
      (by decide) "/mock" none)

/-- Applying a list of observation plugins through the opt-in loop
appends their names, in list order, to every invocation trace. -/
theorem applyOptIns_observe (names : List String) (f : Wrapped) :
    applyOptIns (observeMap names) f = .ok (fun x => ((f x).1, (f x).2 ++ names)) := by
  induction names generalizing f with
  | nil =>
      simp only [observeMap, List.map_nil, applyOptIns]
      exact congrArg Except.ok (funext fun x => by simp)
  | cons n ns ih =>
      simp only [observeMap, List.map_cons, applyOptIns, observePlugin]
      rw [show (observeMap ns) = ns.map (fun n => (n, observePlugin n)) from rfl] at ih
      rw [ih]
      exact congrArg Except.ok (funext fun x => by simp)

/-- Applying a list of observation plugins through the global loop
appends their names, in list order, to every invocation trace. -/
theorem applyGlobals_observe (names : List String) (f : Wrapped) :
    applyGlobals (observeMap names) f = .ok (fun x => ((f x).1, (f x).2 ++ names)) := by
  induction names generalizing f with
  | nil =>
      simp only [observeMap, List.map_nil, applyGlobals]
      exact congrArg Except.ok (funext fun x => by simp)
  | cons n ns ih =>
      simp only [observeMap, List.map_cons, applyGlobals, observePlugin]
      rw [show (observeMap ns) = ns.map (fun n => (n, observePlugin n)) from rfl] at ih
      rw [ih]
      exact congrArg Except.ok (funext fun x => by simp)

/-- Filtering an observation-plugin map by tag membership is the
observation-plugin map of the filtered names. -/
theorem filter_observeMap (names tags : List String) :
    (observeMap names).filter (fun q => tags.contains q.1) =
      observeMap (names.filter (fun n => tags.contains n)) := by
  induction names with
  | nil => rfl
  | cons n ns ih =>
      simp only [observeMap, List.map_cons, List.filter_cons] at ih ⊢
      cases h : tags.contains n <;> rw [ih] <;> simp [h]

/-- C2 (amended): at registration time the opt-in plugins are applied
first, in the order of the handler's opt-in plugin mapping restricted
to the tags the operation carries (not in the order the tags were
declared on the operation), then the global plugins in the order of the
global mapping; hence on every invocation of the final wrapped
operation every global plugin's side effect is observed after every
opt-in plugin's: the trace is the selected opt-in names followed by the
global names. -/
theorem c2_plugin_order_amended (optNames tags globalNames : List String) (x : Nat) :
    (wrapOperation (observeMap optNames) tags (observeMap globalNames) baseOp).map
        (fun g => g x) =
      .ok (x, (optNames.filter (fun n => tags.contains n)) ++ globalNames) := by
  have h1 := applyOptIns_observe (optNames.filter (fun n => tags.contains n)) baseOp
  simp only [wrapOperation]
  rw [filter_observeMap, h1]
  simp [applyGlobals_observe, baseOp, Except.map]

/-- C2 counterexample: with opt-in plugins registered in map order
`a, b` and the operation's tags declared in order `b, a`, the observed
side-effect order is `a, b` — the plugin-map order — not the tag
declaration order `b, a` the claim requires. -/
theorem c2_counterexample :
    (wrapOperation (observeMap ["a", "b"]) ["b", "a"] [] baseOp).map (fun g => g 0) =
      .ok (0, ["a", "b"]) ∧
    (["a", "b"] : List String) ≠ ["b", "a"] := by
  constructor
  · have h1 := applyOptIns_observe
      ((["a", "b"] : List String).filter (fun n => (["b", "a"] : List String).contains n))
      baseOp
    simp only [wrapOperation]
    rw [filter_observeMap, h1]
    rfl
  · decide

/-- C4 counterexample: a global plugin whose wrapping step raises a
`TypeError` during registration propagates it raw out of the wrapping
phase — the try/except that converts a `TypeError` into
`HandlerPluginError` surrounds only the opt-in loop, not the global
loop. -/
theorem c4_counterexample :
    wrapOperation [] [] [("gp", failingPlugin "bad signature")] baseOp =
      .error (.raw (.typeError "bad signature")) ∧
    RegErr.raw (.typeError "bad signature") ≠
      RegErr.handlerPluginError "bad signature" := by
  exact ⟨rfl, by simp⟩

/-- C4 (amended): the opt-in loop never lets a `TypeError` escape raw:
whatever opt-in plugin raises one — after any run of successful
applications — the loop re-raises it as `HandlerPluginError` carrying
the original message.  The global loop, by contrast, propagates the
same `TypeError` raw. -/
theorem c4_plugin_error_amended (pre post : List (String × HPlugin)) (n : String)
    (p : HPlugin) (f f1 : Wrapped) (m : String) :
    (applyOptIns pre f ≠ .error (.raw (.typeError m))) ∧
    (applyOptIns pre f = .ok f1 → p f1 = .error (.typeError m) →
      applyOptIns (pre ++ (n, p) :: post) f = .error (.handlerPluginError m)) ∧
    (applyGlobals pre f = .ok f1 → p f1 = .error (.typeError m) →
      applyGlobals (pre ++ (n, p) :: post) f = .error (.raw (.typeError m))) := by
  refine ⟨?_, ?_, ?_⟩
  · induction pre generalizing f with
    | nil => simp [applyOptIns]
    | cons q rest ih =>
        intro h
        rw [show applyOptIns (q :: rest) f =
              (match q.2 f with
               | .ok f' => applyOptIns rest f'
               | .error (.typeError m') => .error (.handlerPluginError m')
               | .error e => .error (.raw e)) from rfl] at h
        cases hq : q.2 f with
        | ok f' =>
            rw [hq] at h
            exact ih f' h
        | error e =>
            cases e with
            | typeError m' =>
                rw [hq] at h
                cases h
            | otherError m' =>
                rw [hq] at h
                cases h
  · intro h1 h2
    induction pre generalizing f with
    | nil =>
        have hf : f1 = f := by
          rw [show applyOptIns [] f = .ok f from rfl] at h1
          cases h1
          rfl
        subst hf
        rw [show ([] : List (String × HPlugin)) ++ (n, p) :: post =
              (n, p) :: post from rfl]
        rw [show applyOptIns ((n, p) :: post) f1 =
              (match p f1 with
               | .ok f' => applyOptIns post f'
               | .error (.typeError m') => .error (.handlerPluginError m')
               | .error e => .error (.raw e)) from rfl]
        rw [h2]
    | cons q rest ih =>
        rw [show applyOptIns (q :: rest) f =
              (match q.2 f with
               | .ok f' => applyOptIns rest f'
               | .error (.typeError m') => .error (.handlerPluginError m')
               | .error e => .error (.raw e)) from rfl] at h1
        rw [show (q :: rest) ++ (n, p) :: post =
              q :: (rest ++ (n, p) :: post) from rfl]
        rw [show applyOptIns (q :: (rest ++ (n, p) :: post)) f =
              (match q.2 f with
               | .ok f' => applyOptIns (rest ++ (n, p) :: post) f'
               | .error (.typeError m') => .error (.handlerPluginError m')
               | .error e => .error (.raw e)) from rfl]
        cases hq : q.2 f with
        | ok f' =>
            rw [hq] at h1
            exact ih f' h1
        | error e =>
            rw [hq] at h1
            cases e <;> cases h1
  · intro h1 h2
    induction pre generalizing f with
    | nil =>
        have hf : f1 = f := by
          rw [show applyGlobals [] f = .ok f from rfl] at h1
          cases h1
          rfl
        subst hf
        rw [show ([] : List (String × HPlugin)) ++ (n, p) :: post =
              (n, p) :: post from rfl]
        rw [show applyGlobals ((n, p) :: post) f1 =
              (match p f1 with
               | .ok f' => applyGlobals post f'
               | .error e => .error (.raw e)) from rfl]
        rw [h2]
    | cons q rest ih =>
        rw [show applyGlobals (q :: rest) f =
              (match q.2 f with
               | .ok f' => applyGlobals rest f'
               | .error e => .error (.raw e)) from rfl] at h1
        rw [show (q :: rest) ++ (n, p) :: post =
              q :: (rest ++ (n, p) :: post) from rfl]
        rw [show applyGlobals (q :: (rest ++ (n, p) :: post)) f =
              (match q.2 f with
               | .ok f' => applyGlobals (rest ++ (n, p) :: post) f'
               | .error e => .error (.raw e)) from rfl]
        cases hq : q.2 f with
        | ok f' =>
            rw [hq] at h1
            exact ih f' h1
        | error e =>
            rw [hq] at h1
            cases h1

/-- Witness for C4 (amended): a single failing plugin is re-raised as
`HandlerPluginError` by the opt-in loop and propagated raw by the
global loop. -/
theorem c4_witness :
    applyOptIns [("p", failingPlugin "boom")] baseOp =
      .error (.handlerPluginError "boom") ∧
    applyGlobals [("p", failingPlugin "boom")] baseOp =
      .error (.raw (.typeError "boom")) :=
  ⟨(c4_plugin_error_amended [] [] "p" (failingPlugin "boom") baseOp baseOp "boom").2.1
      rfl rfl,
   (c4_plugin_error_amended [] [] "p" (failingPlugin "boom") baseOp baseOp "boom").2.2
      rfl rfl⟩

/-- Writing the same key/value into an association list twice is the
same as writing it once. -/
theorem insertAssoc_idem (l : List (Nat × PyVal)) (k : Nat) (v : PyVal) :
    insertAssoc (insertAssoc l k v) k v = insertAssoc l k v := by
  induction l with
  | nil => simp [insertAssoc]
  | cons kv rest ih =>
      by_cases h : kv.1 = k
      · simp [insertAssoc, h]
      · simp [insertAssoc, h, ih]

/-- Adding the same member to the set twice is the same as adding it
once. -/
theorem setAdd_idem (l : List RouterEntry) (e : RouterEntry) :
    setAdd (setAdd l e) e = setAdd l e := by
  by_cases h : e ∈ l
  · simp [setAdd, h]
  · have hmem : e ∈ l ++ [e] := by simp
    simp [setAdd, h, hmem]

/-- The added member is in the set afterwards. -/
theorem mem_setAdd_self (l : List RouterEntry) (e : RouterEntry) : e ∈ setAdd l e := by
  by_cases h : e ∈ l <;> simp [setAdd, h]

/-- Adding a member not yet present appends it. -/
theorem setAdd_of_not_mem (l : List RouterEntry) (e : RouterEntry) (h : e ∉ l) :
    setAdd l e = l ++ [e] := by
  simp [setAdd, h]

/-- A function-based route built by `register_handler` is always valid:
its fields are one-element tuples and a function. -/
theorem route_init_fn_valid (uri : String) (ms : List String) (fid : Nat) :
    (Route.init (.str uri) (.strTuple ms) (.func fid)).is_valid = true := by
  simp [Route.init, Route.is_valid, PyVal.truthy]

/-- Under the freshness invariant, the next object id is not the id of
any `Route` object already in the set. -/
theorem wf_not_mem (st : RouterState) (hwf : RouterWF st = true) (r : Route) :
    RouterEntry.routeObj st.nextObj r ∉ st.routes := by
  intro hm
  have h := List.all_eq_true.mp hwf _ hm
  simp at h

/-- `register_handler` on a function computes to appending one fresh
`Route` object, and preserves the freshness invariant. -/
theorem register_fn_step (st : RouterState) (hwf : RouterWF st = true)
    (fid : Nat) (uri : String) (ms : List String) :
    register_handler st (.function fid) uri ms =
      .ok { nextObj := st.nextObj + 1,
            routes := st.routes ++
              [.routeObj st.nextObj (Route.init (.str uri) (.strTuple ms) (.func fid))],
            base_endpoints := st.base_endpoints } ∧
    RouterWF { nextObj := st.nextObj + 1,
               routes := st.routes ++
                 [.routeObj st.nextObj (Route.init (.str uri) (.strTuple ms) (.func fid))],
               base_endpoints := st.base_endpoints } = true := by
  constructor
  · simp [register_handler, route_init_fn_valid,
      setAdd_of_not_mem _ _ (wf_not_mem st hwf _)]
  · rw [RouterWF, List.all_eq_true]
    intro e he
    rcases List.mem_append.mp he with hm | hm
    · have h := List.all_eq_true.mp hwf _ hm
      cases e with
      | routeObj oid r0 =>
          simp at h ⊢
          omega
      | handlerType c => simp
    · have : e = .routeObj st.nextObj (Route.init (.str uri) (.strTuple ms) (.func fid)) := by
        simpa using hm
      subst this
      simp

/-- C5 (amended): the router's entry set de-duplicates by object
identity only.  Re-registering the same handler class is an idempotent
no-op (the identical class object is offered to the set again), but each
function-based `register_handler` call with identical arguments wraps
the callable in a fresh `Route` object, so the call is not idempotent:
two identical calls grow the route set — and hence the host
registrations produced at mount time — by two. -/
theorem c5_registration_amended (st : RouterState) (hwf : RouterWF st = true)
    (cid fid : Nat) (uri : String) (ms : List String) :
    (∀ st1, register_handler st (.handlerCls cid) uri ms = .ok st1 →
        register_handler st1 (.handlerCls cid) uri ms = .ok st1) ∧
    (∀ st1 st2, register_handler st (.function fid) uri ms = .ok st1 →
        register_handler st1 (.function fid) uri ms = .ok st2 →
        st2.routes.length = st.routes.length + 2) := by
  constructor
  · intro st1 h
    have hcomp : register_handler st (.handlerCls cid) uri ms =
        .ok { nextObj := st.nextObj,
              routes := setAdd st.routes (.handlerType cid),
              base_endpoints := insertAssoc st.base_endpoints cid (.str uri) } := rfl
    rw [hcomp] at h
    cases h
    have hcomp2 : register_handler
        { nextObj := st.nextObj,
          routes := setAdd st.routes (.handlerType cid),
          base_endpoints := insertAssoc st.base_endpoints cid (.str uri) }
        (.handlerCls cid) uri ms =
        .ok { nextObj := st.nextObj,
              routes := setAdd (setAdd st.routes (.handlerType cid)) (.handlerType cid),
              base_endpoints :=
                insertAssoc (insertAssoc st.base_endpoints cid (.str uri)) cid
                  (.str uri) } := rfl
    rw [hcomp2, setAdd_idem, insertAssoc_idem]
  · intro st1 st2 h1 h2
    obtain ⟨hc1, hwf1⟩ := register_fn_step st hwf fid uri ms
    rw [hc1] at h1
    cases h1
    obtain ⟨hc2, _⟩ := register_fn_step _ hwf1 fid uri ms
    rw [hc2] at h2
    cases h2
    simp

/-- Witness for C5 (amended): from the empty router, re-registering
handler class 3 is a no-op, while registering function 7 twice with
identical arguments yields two route entries. -/
theorem c5_witness :
    register_handler
        { nextObj := 0, routes := [.handlerType 3],
          base_endpoints := [(3, .str "/api")] }
        (.handlerCls 3) "/api" ["GET"] =
      .ok { nextObj := 0, routes := [.handlerType 3],
            base_endpoints := [(3, .str "/api")] } ∧
    ({ nextObj := 2,
       routes := [.routeObj 0 (Route.init (.str "/x") (.strTuple ["GET"]) (.func 7)),
                  .routeObj 1 (Route.init (.str "/x") (.strTuple ["GET"]) (.func 7))],
       base_endpoints := [] } : RouterState).routes.length =
      ({ nextObj := 0, routes := [], base_endpoints := [] } : RouterState).routes.length
        + 2 :=
  ⟨(c5_registration_amended { nextObj := 0, routes := [], base_endpoints := [] }
      (by decide) 3 7 "/api" ["GET"]).1
      { nextObj := 0, routes := [.handlerType 3],
        base_endpoints := [(3, .str "/api")] } rfl,
   (c5_registration_amended { nextObj := 0, routes := [], base_endpoints := [] }
      (by decide) 3 7 "/x" ["GET"]).2
      { nextObj := 1,
        routes := [.routeObj 0 (Route.init (.str "/x") (.strTuple ["GET"]) (.func 7))],
        base_endpoints := [] }
      { nextObj := 2,
        routes := [.routeObj 0 (Route.init (.str "/x") (.strTuple ["GET"]) (.func 7)),
                   .routeObj 1 (Route.init (.str "/x") (.strTuple ["GET"]) (.func 7))],
        base_endpoints := [] } rfl rfl⟩

/-- C5 counterexample: two `register_handler` calls with identical
arguments (same pattern `/x`, same methods `GET`, same callable) leave
two entries in the route set, and mounting then produces two host
registrations for that pattern and method set, not one. -/
theorem c5_counterexample :
    (Except.bind
        (register_handler { nextObj := 0, routes := [], base_endpoints := [] }
          (.function 7) "/x" ["GET"])
        (fun s1 => register_handler s1 (.function 7) "/x" ["GET"])).map
      (fun s2 => (s2.routes.length, mount s2)) =
    .ok (2,
      .ok [.reg { pattern := .tuple1 (.str "/x"), methods := .tuple1 (.strTuple ["GET"]),
                  callable_obj := .func 7 },
           .reg { pattern := .tuple1 (.str "/x"), methods := .tuple1 (.strTuple ["GET"]),
                  callable_obj := .func 7 }]) := rfl

/-- C6 counterexample: registering `BaseHandler` itself with the Router
raises nothing — `Route.wrap_callable` proxies any `HandlerMeta`
instance, and `BaseHandler` is one — and the handler IS added to the
route set; the `HandlerError` is raised only when `mount` later calls
`BaseHandler.register_app`. -/
theorem c6_counterexample :
    register_handler { nextObj := 0, routes := [], base_endpoints := [] }
        (.handlerCls baseHandlerId) "/" ["GET"] =
      .ok { nextObj := 0, routes := [.handlerType baseHandlerId],
            base_endpoints := [(baseHandlerId, .str "/")] } ∧
    ({ nextObj := 0, routes := [.handlerType baseHandlerId],
       base_endpoints := [(baseHandlerId, .str "/")] } : RouterState).routes ≠ [] ∧
    mount { nextObj := 0, routes := [.handlerType baseHandlerId],
            base_endpoints := [(baseHandlerId, .str "/")] } =
      .error (.handlerError "Cant register a `BaseHandler` class instance") := by
  exact ⟨rfl, by simp, rfl⟩

/-- A route set containing `BaseHandler` makes `mount` raise the
`HandlerError`, wherever the entry sits. -/
theorem mountGo_base (l : List RouterEntry) (acc : List HostAction)
    (h : RouterEntry.handlerType baseHandlerId ∈ l) :
    mountGo l acc = .error (.handlerError "Cant register a `BaseHandler` class instance") := by
  induction l generalizing acc with
  | nil => cases h
  | cons e rest ih =>
      cases e with
      | routeObj oid r =>
          have hr : RouterEntry.handlerType baseHandlerId ∈ rest := by
            rcases List.mem_cons.mp h with hc | hc
            · cases hc
            · exact hc
          simp only [mountGo]
          exact ih _ hr
      | handlerType cid =>
          by_cases hc : cid = baseHandlerId
          · subst hc
            simp [mountGo]
          · have hr : RouterEntry.handlerType baseHandlerId ∈ rest := by
              rcases List.mem_cons.mp h with hm | hm
              · cases hm
                exact absurd rfl hc
              · exact hm
            simp only [mountGo, hc, if_false]
            exact ih _ hr

/-- C6 (amended): registering the abstract `BaseHandler` with the Router
succeeds — the class is proxied and added to the route set — and the
`HandlerError` is raised at mount time, when the Router calls
`register_app` on it; it is a mount-time failure, not a
registration-time one. -/
theorem c6_base_handler_amended (st : RouterState) (uri : String) (ms : List String) :
    (∃ st1, register_handler st (.handlerCls baseHandlerId) uri ms = .ok st1 ∧
        RouterEntry.handlerType baseHandlerId ∈ st1.routes) ∧
    (∀ st1, RouterEntry.handlerType baseHandlerId ∈ st1.routes →
        mount st1 =
          .error (.handlerError "Cant register a `BaseHandler` class instance")) := by
  constructor
  · refine ⟨{ nextObj := st.nextObj,
              routes := setAdd st.routes (.handlerType baseHandlerId),
              base_endpoints := insertAssoc st.base_endpoints baseHandlerId (.str uri) },
            rfl, ?_⟩
    exact mem_setAdd_self st.routes (.handlerType baseHandlerId)
  · intro st1 h
    exact mountGo_base st1.routes [] h

/-- Witness for C6 (amended): a router whose set holds `BaseHandler`
fails at mount with the `HandlerError`. -/
theorem c6_witness :
    mount { nextObj := 0, routes := [.handlerType baseHandlerId], base_endpoints := [] } =
      .error (.handlerError "Cant register a `BaseHandler` class instance") :=
  (c6_base_handler_amended { nextObj := 0, routes := [], base_endpoints := [] } "/" []).2
    { nextObj := 0, routes := [.handlerType baseHandlerId], base_endpoints := [] }
    (by simp)

/-- C7 counterexample: handler types `A` (class 1) and `B` (class 2)
both inherit the plugin dicts of `BaseHandler` (class 0); `add_plugin`
on `A` mutates the single shared dict, so the plugin map `B` observes
changes as well — the plugin maps are not owned exclusively. -/
theorem c7_counterexample :
    viewPlugins
        { heap := [(0, []), (1, [])],
          classes := [(0, { parent := none, pluginsAttr := some 0, globalAttr := some 1 }),
                      (1, { parent := some 0, pluginsAttr := none, globalAttr := none }),
                      (2, { parent := some 0, pluginsAttr := none, globalAttr := none })] }
        2 false = some [] ∧
    (add_plugin
        { heap := [(0, []), (1, [])],
          classes := [(0, { parent := none, pluginsAttr := some 0, globalAttr := some 1 }),
                      (1, { parent := some 0, pluginsAttr := none, globalAttr := none }),
                      (2, { parent := some 0, pluginsAttr := none, globalAttr := none })] }
        1 [("p", 5)] false).map (fun w => viewPlugins w 2 false) =
      some (some [("p", 5)]) ∧
    some (some [("p", 5)]) ≠ some (some ([] : PluginDict)) := by
  exact ⟨rfl, rfl, by decide⟩

/-- Updating the dict at one heap reference leaves every other heap
reference unchanged. -/
theorem lookup_heapUpdate_ne (h : List (Nat × PluginDict)) (refA : Nat)
    (entries : List (String × Nat)) (refB : Nat) (hne : refB ≠ refA) :
    (heapUpdate h refA entries).lookup refB = h.lookup refB := by
  induction h with
  | nil => rfl
  | cons rd rest ih =>
      rcases rd with ⟨k, d⟩
      have hmap : heapUpdate ((k, d) :: rest) refA entries =
          (if k = refA then (k, entries.foldl (fun d e => dictAssign d e.1 e.2) d)
           else (k, d)) :: heapUpdate rest refA entries := rfl
      rw [hmap]
      by_cases hk : k = refA
      · rw [if_pos hk]
        have hb : refB ≠ k := fun he => hne (he.trans hk)
        have hbeq : (refB == k) = false := by simp [hb]
        simp [List.lookup, hbeq, ih]
      · rw [if_neg hk]
        by_cases hb : refB = k
        · subst hb
          simp [List.lookup]
        · have hbeq : (refB == k) = false := by simp [hb]
          simp [List.lookup, hbeq, ih]

/-- C7 (amended): `add_plugin` mutates exactly the dict object that
attribute lookup resolves for the target class and scope; any class
whose attribute lookup (for a given scope) resolves to a different dict
object — e.g. a handler type defining its own plugin maps — observes no
change.  Exclusive ownership holds only under that disjointness; types
that share the inherited `BaseHandler` dicts do not have it. -/
theorem c7_plugin_frame_amended (w w' : PluginWorld) (a b : Nat)
    (entries : List (String × Nat)) (gs gs' : Bool)
    (h1 : add_plugin w a entries gs = some w')
    (hne : getattrDict w.classes b gs' w.classes.length ≠
           getattrDict w.classes a gs w.classes.length) :
    viewPlugins w' b gs' = viewPlugins w b gs' := by
  unfold add_plugin at h1
  cases hga : getattrDict w.classes a gs w.classes.length with
  | none =>
      rw [hga] at h1
      cases h1
  | some refA =>
      rw [hga] at h1
      cases h1
      unfold viewPlugins
      cases hgb : getattrDict w.classes b gs' w.classes.length with
      | none => simp [hgb]
      | some refB =>
          have hrne : refB ≠ refA := by
            rw [hga, hgb] at hne
            intro he
            exact hne (by rw [he])
          simp only [hgb]
          exact lookup_heapUpdate_ne w.heap refA entries refB hrne

/-- Witness for C7 (amended): when `A` (class 1) and `B` (class 2) each
define their own plugin dicts, adding a plugin to `A` leaves the map
`B` observes unchanged. -/
theorem c7_witness :
    viewPlugins
        { heap := [(0, []), (1, []), (2, [("p", 9)]), (3, []), (4, []), (5, [])],
          classes := [(0, { parent := none, pluginsAttr := some 0, globalAttr := some 1 }),
                      (1, { parent := some 0, pluginsAttr := some 2, globalAttr := some 3 }),
                      (2, { parent := some 0, pluginsAttr := some 4, globalAttr := some 5 })] }
        2 false =
      viewPlugins
        { heap := [(0, []), (1, []), (2, []), (3, []), (4, []), (5, [])],
          classes := [(0, { parent := none, pluginsAttr := some 0, globalAttr := some 1 }),
                      (1, { parent := some 0, pluginsAttr := some 2, globalAttr := some 3 }),
                      (2, { parent := some 0, pluginsAttr := some 4, globalAttr := some 5 })] }
        2 false :=
  c7_plugin_frame_amended
    { heap := [(0, []), (1, []), (2, []), (3, []), (4, []), (5, [])],
      classes := [(0, { parent := none, pluginsAttr := some 0, globalAttr := some 1 }),
                  (1, { parent := some 0, pluginsAttr := some 2, globalAttr := some 3 }),
                  (2, { parent := some 0, pluginsAttr := some 4, globalAttr := some 5 })] }
    { heap := [(0, []), (1, []), (2, [("p", 9)]), (3, []), (4, []), (5, [])],
      classes := [(0, { parent := none, pluginsAttr := some 0, globalAttr := some 1 }),
                  (1, { parent := some 0, pluginsAttr := some 2, globalAttr := some 3 }),
                  (2, { parent := some 0, pluginsAttr := some 4, globalAttr := some 5 })] }
    1 2 [("p", 9)] false false rfl (by decide)

end BottleNeck
